import Mathlib

/-!
Formal model of the egomobile node-queue task dispatcher.

The definitions below are a shallow embedding of the TypeScript sources:
memoryQueueStorage.ts (class MemoryQueueStorage and class Queue),
queueStorageBase.ts (class QueueStorageBase) and types of types/index.ts.
JavaScript numbers are modelled as exact integers (all values that occur
stay inside the safe-integer range), strings as Lean strings, objects as
association lists, and object identity through explicit reference counters.
-/

/-! Model of the JavaScript conversion String(n) for safe integers:
decimal digits, with a leading minus character (code 45) for negatives. -/

def digitChar (d : Nat) : Char := Char.ofNat (48 + d)

def natChars (n : Nat) : List Char := (Nat.digits 10 n).map digitChar

def natString (n : Nat) : String :=
  if n = 0 then String.mk [Char.ofNat 48] else String.mk (natChars n).reverse

def jsIntString (i : Int) : String :=
  if i < 0 then String.mk (Char.ofNat 45 :: (natString i.natAbs).data) else natString i.toNat

/-! JavaScript values, objects as association lists, and a reference store.
The store makes object identity and aliasing explicit: an object literal
allocates a fresh reference, and a spread expression copies the top-level
entries into a freshly allocated object. -/

inductive JsVal where
  | num (n : Int)
  | str (s : String)
  | ref (r : Nat)
deriving DecidableEq

def assocLookup {κ α : Type} [DecidableEq κ] : List (κ × α) → κ → Option α
  | [], _ => none
  | (k, v) :: t, key => if k = key then some v else assocLookup t key

def assocSet {κ α : Type} [DecidableEq κ] : List (κ × α) → κ → α → List (κ × α)
  | [], k, v => [(k, v)]
  | (k0, v0) :: t, k, v => if k0 = k then (k, v) :: t else (k0, v0) :: assocSet t k v

def assocRemove {κ α : Type} [DecidableEq κ] (l : List (κ × α)) (k : κ) : List (κ × α) :=
  l.filter (fun e => e.1 ≠ k)

def JsObj : Type := List (String × JsVal)

instance : DecidableEq JsObj := by
  unfold JsObj; infer_instance

def Store : Type := List (Nat × JsObj)

def freshRef (σ : Store) : Nat := (σ.map (fun e => e.1)).foldr max 0 + 1

def spreadInto (σ : Store) (r : Nat) : Store × Nat :=
  ((freshRef σ, (assocLookup σ r).getD []) :: σ, freshRef σ)

def buildExecutionContext (σ : Store) (dataRef : Nat) (key : String) : Store × Nat × String :=
  ((spreadInto σ dataRef).1, (spreadInto σ dataRef).2, key)

inductive ObjMutation where
  | setKey (k : String) (v : JsVal)
  | delKey (k : String)
deriving DecidableEq

def mutateObj (o : JsObj) : ObjMutation → JsObj
  | .setKey k v => assocSet o k v
  | .delKey k => assocRemove o k

def storeUpdate (σ : Store) (r : Nat) (f : JsObj → JsObj) : Store :=
  σ.map (fun e => if e.1 = r then (e.1, f e.2) else e)

def applyMutations (σ : Store) (r : Nat) (ms : List ObjMutation) : Store :=
  ms.foldl (fun σ2 m => storeUpdate σ2 r (fun o => mutateObj o m)) σ

/-! Task records and the MemoryQueueStorage state (memoryQueueStorage.ts).
The enum TaskInQueueStatus keeps the source spelling of its members.
Each ITaskInQueue object carries an explicit object identity oid, so that
the model distinguishes the stored record from the fresh object literals
that enqueueRemainingTasks hands to executeTask. -/

inductive TaskInQueueStatus where
  | Queued
  | Running
  | Succeded
  | Failed
  | Stopped
deriving DecidableEq, Fintype

structure QueueTaskOptions where
  data : JsObj
  key : String
deriving DecidableEq

structure QueueTaskContext where
  id : String
deriving DecidableEq

structure TaskInQueue where
  oid : Nat
  id : String
  options : QueueTaskOptions
  status : TaskInQueueStatus
deriving DecidableEq

structure MemState where
  nextId : Int
  nextOid : Nat
  tasksInQueue : List TaskInQueue
  pendingOids : List Nat
deriving DecidableEq

def numberMinSafeInteger : Int := -9007199254740991

def initMemState : MemState :=
  ⟨numberMinSafeInteger, 0, [], []⟩

def cleanupTasksInQueue (s : MemState) : MemState :=
  { s with tasksInQueue := s.tasksInQueue.filter (fun t => t.status ≠ .Succeded) }

def enqueueTask (s : MemState) (options : QueueTaskOptions) (hasExecHandlers : Bool) :
    MemState × QueueTaskContext :=
  ({ s with
      nextId := s.nextId + 1,
      nextOid := s.nextOid + 1,
      tasksInQueue := s.tasksInQueue ++ [⟨s.nextOid, jsIntString s.nextId, options, .Queued⟩],
      pendingOids :=
        if hasExecHandlers then s.pendingOids ++ [s.nextOid] else s.pendingOids },
   ⟨jsIntString s.nextId⟩)

def enqueueMany (s : MemState) : List QueueTaskOptions → Bool → MemState × List QueueTaskContext
  | [], _ => (s, [])
  | o :: rest, hh =>
    ((enqueueMany (enqueueTask s o hh).1 rest hh).1,
      (enqueueTask s o hh).2 :: (enqueueMany (enqueueTask s o hh).1 rest hh).2)

def spawnCopies : Nat → List TaskInQueue → List TaskInQueue
  | _, [] => []
  | n, t :: rest => { t with oid := n } :: spawnCopies (n + 1) rest

def enqueueRemainingTasks (s : MemState) (hasExecHandlers : Bool) :
    MemState × List QueueTaskContext × List TaskInQueue :=
  ({ s with
      nextOid := s.nextOid + (s.tasksInQueue.filter (fun t => t.status = .Queued)).length,
      pendingOids :=
        if hasExecHandlers then
          s.pendingOids
            ++ (spawnCopies s.nextOid (s.tasksInQueue.filter (fun t => t.status = .Queued))).map
              (fun t => t.oid)
        else s.pendingOids },
   [],
   spawnCopies s.nextOid (s.tasksInQueue.filter (fun t => t.status = .Queued)))

def stopTask (t : TaskInQueue) : TaskInQueue :=
  if t.status = .Queued ∨ t.status = .Running ∨ t.status = .Failed then
    { t with status := .Stopped }
  else t

def stopAllEnqueuedTasks (s : MemState) : MemState :=
  { s with tasksInQueue := s.tasksInQueue.map stopTask }

/-! Per-record execution machine: the lifecycle that executeTask drives for
one ITaskInQueue object (memoryQueueStorage.ts lines 46 to 111).
A record state carries the status field, whether a setImmediate callback for
the record is pending, whether an in-flight attempt is awaiting settlement
and with which outcome, and whether the record sits in the backing list.
The second component of a step counts the execute events emitted to the
subscribed execution handlers by that step. -/

structure RecState where
  status : TaskInQueueStatus
  tickPending : Bool
  settlePending : Option Bool
  inList : Bool
deriving DecidableEq, Fintype

inductive RAct where
  | fireTick (ok : Bool)
  | settle (hasHandlers : Bool)
  | stopAll
  | cleanup
deriving DecidableEq, Fintype

def rstep (s : RecState) (a : RAct) : RecState × Nat :=
  match a with
  | .fireTick ok =>
    if s.tickPending then
      if s.status = .Stopped then ({ s with tickPending := false }, 0)
      else ({ s with tickPending := false, status := .Running, settlePending := some ok }, 1)
    else (s, 0)
  | .settle hasHandlers =>
    match s.settlePending with
    | none => (s, 0)
    | some true => ({ s with settlePending := none, status := .Succeded, inList := false }, 0)
    | some false =>
      if s.status = .Stopped then ({ s with settlePending := none, status := .Failed }, 0)
      else ({ s with settlePending := none, status := .Failed, tickPending := hasHandlers }, 0)
  | .stopAll =>
    if s.inList ∧ (s.status = .Queued ∨ s.status = .Running ∨ s.status = .Failed) then
      ({ s with status := .Stopped }, 0)
    else (s, 0)
  | .cleanup =>
    if s.status = .Succeded then ({ s with inList := false }, 0) else (s, 0)

def runRec : RecState → List RAct → RecState × Nat
  | s, [] => (s, 0)
  | s, a :: rest =>
    ((runRec (rstep s a).1 rest).1, (rstep s a).2 + (runRec (rstep s a).1 rest).2)

def RecInv (s : RecState) : Prop :=
  (s.tickPending = true → s.settlePending = none)
  ∧ (s.status = .Succeded → s.tickPending = false ∧ s.settlePending = none)
  ∧ (s.status ≠ .Succeded → s.inList = true)

instance (s : RecState) : Decidable (RecInv s) := by
  unfold RecInv; infer_instance

def Dead (s : RecState) : Prop :=
  (s.tickPending = true → s.settlePending = none)
  ∧ (s.status = .Stopped ∨ (s.tickPending = false ∧ s.settlePending = none))

instance (s : RecState) : Decidable (Dead s) := by
  unfold Dead; infer_instance

def SuccTerm (s : RecState) : Prop :=
  s.status = .Succeded ∧ s.tickPending = false ∧ s.settlePending = none

instance (s : RecState) : Decidable (SuccTerm s) := by
  unfold SuccTerm; infer_instance

def StopDead (s : RecState) : Prop :=
  Dead s ∧ (s.status = .Stopped ∨ s.status = .Failed ∨ s.status = .Succeded)

instance (s : RecState) : Decidable (StopDead s) := by
  unfold StopDead; infer_instance

/-! The dispatcher (class Queue in the source bundle).
Handler values record only what the code inspects: whether the value is a
function, and, for the execute bridge, whether invoking it settles without
error. Member dispatch on the storage object is modelled explicitly, since
Queue.enqueue dereferences the member name queueTask on the storage. -/

inductive HVal where
  | callable (ok : Bool)
  | notCallable
deriving DecidableEq

def Registry : Type := List (String × HVal)

instance : DecidableEq Registry := by
  unfold Registry; infer_instance

def isCallableIn (reg : Registry) (k : String) : Bool :=
  match assocLookup reg k with
  | some (.callable _) => true
  | _ => false

inductive JsErr where
  | typeErrorEntryNotFunction (index : Nat) (key : String)
  | errorTaskReset (key : String)
  | typeErrorNotAFunction (member : String)
  | errorNoTaskFound (key : String)
deriving DecidableEq

def validateDictEntries : Nat → List (String × HVal) → Except JsErr (List (String × HVal))
  | _, [] => .ok []
  | i, (k, v) :: rest =>
    match v with
    | .notCallable => .error (.typeErrorEntryNotFunction i k)
    | .callable o =>
      match validateDictEntries (i + 1) rest with
      | .error e => .error e
      | .ok r => .ok ((k, .callable o) :: r)

def commitTasks : Registry → List (String × HVal) → Option JsErr × Registry
  | reg, [] => (none, reg)
  | reg, (k, v) :: rest =>
    if isCallableIn reg k then (some (.errorTaskReset k), reg)
    else commitTasks (assocSet reg k v) rest

inductive RegisterArg1 where
  | dict (entries : List (String × HVal))
  | single (pair : String × HVal)

def register (reg : Registry) (arg1 : RegisterArg1) (moreTasks : List (String × HVal)) :
    Option JsErr × Registry :=
  match arg1 with
  | .single p => commitTasks reg (p :: moreTasks)
  | .dict entries =>
    match validateDictEntries 0 entries with
    | .error e => (some e, reg)
    | .ok es => commitTasks reg (es ++ moreTasks)

def memoryQueueStorageMembers : List String :=
  [("_nextId"), ("_tasksInQueue"), ("cleanupTasksInQueue"), ("executeTask"),
    ("enqueueRemainingTasks"), ("enqueueTask"), ("stopAllEnqueuedTasks"),
    ("_errorHandlers"), ("_executionHandlers"), ("getErrorHandlers"),
    ("getExecutionHandlers"), ("on")]

def enqueueStorageCallTarget : String := ("queueTask")

def queueEnqueue (tasks : Registry) (s : MemState) (key : String) (dataArg : Option JsObj) :
    Option JsErr × MemState × Option QueueTaskContext :=
  if isCallableIn tasks key = false then
    (some (.errorNoTaskFound key), s, none)
  else if memoryQueueStorageMembers.contains enqueueStorageCallTarget then
    (none, (enqueueTask s ⟨dataArg.getD [], key⟩ true).1,
      some (enqueueTask s ⟨dataArg.getD [], key⟩ true).2)
  else
    (some (.typeErrorNotAFunction enqueueStorageCallTarget), s, none)

def executeBridge (tasks : Registry) (taskKey : String) : Option String × Bool :=
  match assocLookup tasks taskKey with
  | some (.callable ok) => (some taskKey, ok)
  | _ => (none, true)

/-! Error fan-out of handleError (memoryQueueStorage.ts lines 59 to 78):
each error handler is invoked with an object carrying the error; a handler
that throws is caught and its failure logged, never rethrown. The result
records the payload delivered to each handler, the logged handler failures,
the status written to the record, and whether executeTask was re-invoked. -/

structure QueueErrorContext where
  error : JsVal
deriving DecidableEq

def notifyErrorHandlers :
    List (QueueErrorContext → Except JsVal Unit) → JsVal → List QueueErrorContext × List JsVal
  | [], _ => ([], [])
  | h :: rest, e =>
    ((⟨e⟩ : QueueErrorContext) :: (notifyErrorHandlers rest e).1,
      (match h ⟨e⟩ with
        | .ok _ => ([] : List JsVal)
        | .error e2 => [e2]) ++ (notifyErrorHandlers rest e).2)

structure HandleErrorResult where
  status : TaskInQueueStatus
  delivered : List QueueErrorContext
  logged : List JsVal
  reinvoked : Bool

def handleError (errorHandlers : List (QueueErrorContext → Except JsVal Unit)) (error : JsVal)
    (stoppedAtEntry : Bool) : HandleErrorResult :=
  ⟨.Failed, (notifyErrorHandlers errorHandlers error).1,
    (notifyErrorHandlers errorHandlers error).2, !stoppedAtEntry⟩

def intRange : Int → Nat → List Int
  | _, 0 => []
  | a, n + 1 => a :: intRange (a + 1) n

def stripOid (t : TaskInQueue) : String × QueueTaskOptions × TaskInQueueStatus :=
  (t.id, t.options, t.status)

lemma digitChar_inj10 (d e : Nat) (hd : d < 10) (he : e < 10) (h : digitChar d = digitChar e) :
    d = e := by
  interval_cases d <;> interval_cases e <;> first | rfl | exact absurd h (by decide)

lemma digitChar_ne_minus (d : Nat) (hd : d < 10) : digitChar d ≠ Char.ofNat 45 := by
  interval_cases d <;> decide

lemma digits_lt10 {n d : Nat} (hd : d ∈ Nat.digits 10 n) : d < 10 :=
  Nat.digits_lt_base (by norm_num) hd

lemma map_digitChar_inj {l1 l2 : List Nat} (h1 : ∀ d ∈ l1, d < 10) (h2 : ∀ d ∈ l2, d < 10)
    (h : l1.map digitChar = l2.map digitChar) : l1 = l2 := by
  induction l1 generalizing l2 with
  | nil =>
    cases l2 with
    | nil => rfl
    | cons b t => simp at h
  | cons a t ih =>
    cases l2 with
    | nil => simp at h
    | cons b t2 =>
      simp only [List.map_cons, List.cons.injEq] at h
      have hab : a = b :=
        digitChar_inj10 a b (h1 a (List.mem_cons_self a t)) (h2 b (List.mem_cons_self b t2)) h.1
      have ht : t = t2 :=
        ih (fun d hdm => h1 d (List.mem_cons_of_mem a hdm))
          (fun d hdm => h2 d (List.mem_cons_of_mem b hdm)) h.2
      rw [hab, ht]

lemma natChars_injective {n m : Nat} (h : natChars n = natChars m) : n = m := by
  have hd : Nat.digits 10 n = Nat.digits 10 m :=
    map_digitChar_inj (fun d hdm => digits_lt10 hdm) (fun d hdm => digits_lt10 hdm) h
  have h2 := congrArg (Nat.ofDigits 10) hd
  simpa [Nat.ofDigits_digits] using h2

lemma natChars_ne_single48 {m : Nat} (hm : m ≠ 0) : natChars m ≠ [Char.ofNat 48] := by
  intro hEq
  have hdig : Nat.digits 10 m = [0] := by
    unfold natChars at hEq
    cases hds : Nat.digits 10 m with
    | nil => rw [hds] at hEq; simp at hEq
    | cons d t =>
      rw [hds] at hEq
      simp only [List.map_cons, List.cons.injEq] at hEq
      have hd10 : d < 10 := digits_lt10 (by rw [hds]; exact List.mem_cons_self d t)
      have hd0 : d = 0 := digitChar_inj10 d 0 hd10 (by norm_num) hEq.1
      have ht : t = [] := by
        cases t with
        | nil => rfl
        | cons x xs => simp at hEq
      rw [hd0, ht]
  have := congrArg (Nat.ofDigits 10) hdig
  rw [Nat.ofDigits_digits] at this
  simp [Nat.ofDigits] at this
  exact hm this

lemma natString_injective {n m : Nat} (h : natString n = natString m) : n = m := by
  unfold natString at h
  by_cases hn : n = 0 <;> by_cases hm : m = 0
  · omega
  · exfalso
    rw [if_pos hn, if_neg hm] at h
    have h2 : [Char.ofNat 48] = (natChars m).reverse := congrArg String.data h
    have h3 : natChars m = [Char.ofNat 48] := by
      have := congrArg List.reverse h2
      simpa using this.symm
    exact natChars_ne_single48 hm h3
  · exfalso
    rw [if_neg hn, if_pos hm] at h
    have h2 : (natChars n).reverse = [Char.ofNat 48] := congrArg String.data h
    have h3 : natChars n = [Char.ofNat 48] := by
      have := congrArg List.reverse h2
      simpa using this
    exact natChars_ne_single48 hn h3
  · rw [if_neg hn, if_neg hm] at h
    have h2 : (natChars n).reverse = (natChars m).reverse := congrArg String.data h
    have h3 := congrArg List.reverse h2
    rw [List.reverse_reverse, List.reverse_reverse] at h3
    exact natChars_injective h3

lemma natString_no_minus (n : Nat) : Char.ofNat 45 ∉ (natString n).data := by
  unfold natString
  by_cases hn : n = 0
  · rw [if_pos hn]; decide
  · rw [if_neg hn]
    intro hmem
    have hmem2 : Char.ofNat 45 ∈ natChars n := by
      have : Char.ofNat 45 ∈ (natChars n).reverse := hmem
      simpa using this
    unfold natChars at hmem2
    rcases List.mem_map.1 hmem2 with ⟨d, hd, hEq⟩
    exact digitChar_ne_minus d (digits_lt10 hd) hEq

lemma jsIntString_injective : Function.Injective jsIntString := by
  intro i j h
  unfold jsIntString at h
  by_cases hi : i < 0 <;> by_cases hj : j < 0
  · rw [if_pos hi, if_pos hj] at h
    have h2 : Char.ofNat 45 :: (natString i.natAbs).data
        = Char.ofNat 45 :: (natString j.natAbs).data := congrArg String.data h
    have h3 : (natString i.natAbs).data = (natString j.natAbs).data := by
      simpa using h2
    have h4 : natString i.natAbs = natString j.natAbs := congrArg String.mk h3
    have h5 := natString_injective h4
    omega
  · exfalso
    rw [if_pos hi, if_neg hj] at h
    have h2 : Char.ofNat 45 :: (natString i.natAbs).data = (natString j.toNat).data :=
      congrArg String.data h
    have hmem : Char.ofNat 45 ∈ (natString j.toNat).data := by
      rw [← h2]; exact List.mem_cons_self _ _
    exact natString_no_minus _ hmem
  · exfalso
    rw [if_neg hi, if_pos hj] at h
    have h2 : (natString i.toNat).data = Char.ofNat 45 :: (natString j.natAbs).data :=
      congrArg String.data h
    have hmem : Char.ofNat 45 ∈ (natString i.toNat).data := by
      rw [h2]; exact List.mem_cons_self _ _
    exact natString_no_minus _ hmem
  · rw [if_neg hi, if_neg hj] at h
    have h5 := natString_injective h
    omega

lemma freshRef_gt (σ : Store) (r : Nat) (h : assocLookup σ r ≠ none) : r < freshRef σ := by
  induction σ with
  | nil => simp [assocLookup] at h
  | cons e t ih =>
    unfold assocLookup at h
    unfold freshRef at ih ⊢
    by_cases he : e.1 = r
    · subst he
      simp only [List.map_cons, List.foldr_cons]
      omega
    · rw [if_neg he] at h
      have := ih h
      simp only [List.map_cons, List.foldr_cons]
      omega

lemma assocLookup_freshRef (σ : Store) : assocLookup σ (freshRef σ) = none := by
  by_cases h : assocLookup σ (freshRef σ) = none
  · exact h
  · exact absurd (freshRef_gt σ _ h) (by omega)

lemma storeUpdate_lookup_ne (σ : Store) (r r2 : Nat) (f : JsObj → JsObj) (h : r2 ≠ r) :
    assocLookup (storeUpdate σ r f) r2 = assocLookup σ r2 := by
  induction σ with
  | nil => rfl
  | cons e t ih =>
    unfold storeUpdate at ih ⊢
    by_cases he : e.1 = r
    · simp only [List.map_cons, if_pos he]
      unfold assocLookup
      rw [if_neg (by rw [he]; exact fun hc => h hc.symm), if_neg (by rw [he]; exact fun hc => h hc.symm)]
      exact ih
    · simp only [List.map_cons, if_neg he]
      unfold assocLookup
      by_cases he2 : e.1 = r2
      · rw [if_pos he2, if_pos he2]
      · rw [if_neg he2, if_neg he2]
        exact ih

lemma applyMutations_lookup_ne (ms : List ObjMutation) (σ : Store) (r r2 : Nat) (h : r2 ≠ r) :
    assocLookup (applyMutations σ r ms) r2 = assocLookup σ r2 := by
  induction ms generalizing σ with
  | nil => rfl
  | cons m t ih =>
    unfold applyMutations at ih ⊢
    simp only [List.foldl_cons]
    rw [ih]
    exact storeUpdate_lookup_ne σ r r2 _ h

lemma dead_step : ∀ (s : RecState) (a : RAct), Dead s → Dead (rstep s a).1 ∧ (rstep s a).2 = 0 := by
  decide

lemma succTerm_step : ∀ (s : RecState) (a : RAct),
    SuccTerm s → SuccTerm (rstep s a).1 ∧ (rstep s a).2 = 0 := by
  decide

lemma stopDead_step : ∀ (s : RecState) (a : RAct),
    StopDead s → StopDead (rstep s a).1 ∧ (rstep s a).2 = 0 := by
  decide

lemma recInv_step : ∀ (s : RecState) (a : RAct), RecInv s → RecInv (rstep s a).1 := by
  decide

lemma recInv_enqueued : ∀ hh : Bool, RecInv ⟨.Queued, hh, none, true⟩ := by
  decide

lemma run_preserve (P : RecState → Prop)
    (hstep : ∀ s a, P s → P (rstep s a).1 ∧ (rstep s a).2 = 0) :
    ∀ (acts : List RAct) (s : RecState), P s → P (runRec s acts).1 ∧ (runRec s acts).2 = 0 := by
  intro acts
  induction acts with
  | nil => intro s h; exact ⟨h, rfl⟩
  | cons a rest ih =>
    intro s h
    have h1 := hstep s a h
    have h2 := ih (rstep s a).1 h1.1
    refine ⟨h2.1, ?_⟩
    show (rstep s a).2 + (runRec (rstep s a).1 rest).2 = 0
    omega

/-! Supporting lemmas about id generation, the copies spawned by
enqueueRemainingTasks, and the commit loop of register. -/

lemma mem_intRange {a x : Int} {n : Nat} (h : x ∈ intRange a n) : a ≤ x ∧ x < a + n := by
  induction n generalizing a with
  | zero => simp [intRange] at h
  | succ k ih =>
    rcases List.mem_cons.1 h with h1 | h2
    · subst h1
      constructor
      · omega
      · push_cast; omega
    · have := ih h2
      push_cast at this ⊢
      omega

lemma intRange_nodup (a : Int) (n : Nat) : (intRange a n).Nodup := by
  induction n generalizing a with
  | zero => simp [intRange]
  | succ k ih =>
    refine List.nodup_cons.2 ⟨fun h => ?_, ih (a + 1)⟩
    have := mem_intRange h
    omega

lemma enqueueMany_spec : ∀ (l : List QueueTaskOptions) (s : MemState) (hh : Bool),
    (enqueueMany s l hh).2.map (fun c => c.id) = (intRange s.nextId l.length).map jsIntString
    ∧ (enqueueMany s l hh).1.tasksInQueue.map (fun t => t.id)
      = s.tasksInQueue.map (fun t => t.id) ++ (intRange s.nextId l.length).map jsIntString
    ∧ (enqueueMany s l hh).1.nextId = s.nextId + l.length := by
  intro l
  induction l with
  | nil =>
    intro s hh
    refine ⟨rfl, by simp [enqueueMany, intRange], by simp [enqueueMany]⟩
  | cons o rest ih =>
    intro s hh
    have ihs := ih (enqueueTask s o hh).1 hh
    refine ⟨?_, ?_, ?_⟩
    · show (⟨jsIntString s.nextId⟩ : QueueTaskContext).id
          :: ((enqueueMany (enqueueTask s o hh).1 rest hh).2.map (fun c => c.id))
        = (intRange s.nextId (rest.length + 1)).map jsIntString
      rw [ihs.1]
      rfl
    · show (enqueueMany (enqueueTask s o hh).1 rest hh).1.tasksInQueue.map (fun t => t.id)
        = s.tasksInQueue.map (fun t => t.id)
          ++ (intRange s.nextId (rest.length + 1)).map jsIntString
      rw [ihs.2.1]
      show (s.tasksInQueue ++ ([⟨s.nextOid, jsIntString s.nextId, o, .Queued⟩] : List TaskInQueue)).map
            (fun t => t.id)
          ++ (intRange (s.nextId + 1) rest.length).map jsIntString
        = s.tasksInQueue.map (fun t => t.id)
          ++ jsIntString s.nextId :: (intRange (s.nextId + 1) rest.length).map jsIntString
      simp
    · show (enqueueMany (enqueueTask s o hh).1 rest hh).1.nextId = s.nextId + (rest.length + 1)
      rw [ihs.2.2]
      show s.nextId + 1 + (rest.length : Int) = s.nextId + ((rest.length : Nat) + 1 : Nat)
      push_cast
      omega

lemma spawnCopies_strip : ∀ (l : List TaskInQueue) (n : Nat),
    (spawnCopies n l).map stripOid = l.map stripOid := by
  intro l
  induction l with
  | nil => intro n; rfl
  | cons t rest ih =>
    intro n
    show stripOid { t with oid := n } :: (spawnCopies (n + 1) rest).map stripOid
      = stripOid t :: rest.map stripOid
    rw [ih]
    rfl

lemma spawnCopies_oid_ge : ∀ (l : List TaskInQueue) (n : Nat) (t : TaskInQueue),
    t ∈ spawnCopies n l → n ≤ t.oid := by
  intro l
  induction l with
  | nil => intro n t ht; simp [spawnCopies] at ht
  | cons u rest ih =>
    intro n t ht
    rcases List.mem_cons.1 ht with h1 | h2
    · subst h1; exact le_refl n
    · have := ih (n + 1) t h2
      omega

lemma assocLookup_assocSet_ne {κ α : Type} [DecidableEq κ] (l : List (κ × α)) (k k2 : κ)
    (v : α) (h : k ≠ k2) : assocLookup (assocSet l k v) k2 = assocLookup l k2 := by
  induction l with
  | nil =>
    show assocLookup [(k, v)] k2 = none
    unfold assocLookup
    rw [if_neg h]
    rfl
  | cons e rest ih =>
    unfold assocSet
    by_cases he : e.1 = k
    · rw [if_pos he]
      show (if k = k2 then some v else assocLookup rest k2) = assocLookup (e :: rest) k2
      rw [if_neg h]
      show assocLookup rest k2 = (if e.1 = k2 then some e.2 else assocLookup rest k2)
      rw [if_neg (by rw [he]; exact h)]
    · rw [if_neg he]
      show (if e.1 = k2 then some e.2 else assocLookup (assocSet rest k v) k2)
        = (if e.1 = k2 then some e.2 else assocLookup rest k2)
      by_cases he2 : e.1 = k2
      · rw [if_pos he2, if_pos he2]
      · rw [if_neg he2, if_neg he2, ih]

lemma commitTasks_preserves_callable : ∀ (l : List (String × HVal)) (reg : Registry)
    (k : String), isCallableIn reg k = true →
    assocLookup (commitTasks reg l).2 k = assocLookup reg k := by
  intro l
  induction l with
  | nil => intro reg k _; rfl
  | cons e rest ih =>
    intro reg k hk
    unfold commitTasks
    by_cases he : isCallableIn reg e.1 = true
    · rw [if_pos he]
    · rw [if_neg he]
      have hne : e.1 ≠ k := by
        intro hc
        rw [hc] at he
        exact he hk
      have hset : assocLookup (assocSet reg e.1 e.2) k = assocLookup reg k :=
        assocLookup_assocSet_ne reg e.1 k e.2 hne
      have hcall2 : isCallableIn (assocSet reg e.1 e.2) k = true := by
        unfold isCallableIn at hk ⊢
        rw [hset]
        exact hk
      rw [ih (assocSet reg e.1 e.2) k hcall2, hset]

lemma commitTasks_error_split : ∀ (l : List (String × HVal)) (reg : Registry) (e : JsErr),
    (commitTasks reg l).1 = some e →
    ∃ l1 kv l2, l = l1 ++ kv :: l2 ∧ e = .errorTaskReset kv.1
      ∧ (commitTasks reg l).2 = List.foldl (fun r p => assocSet r p.1 p.2) reg l1
      ∧ isCallableIn (commitTasks reg l).2 kv.1 = true := by
  intro l
  induction l with
  | nil => intro reg e h; exact absurd h (by simp [commitTasks])
  | cons kv0 rest ih =>
    intro reg e h
    unfold commitTasks at h ⊢
    by_cases hc : isCallableIn reg kv0.1 = true
    · rw [if_pos hc] at h ⊢
      refine ⟨[], kv0, rest, by simp, ?_, by simp, hc⟩
      have : some (JsErr.errorTaskReset kv0.1) = some e := h
      exact (Option.some.inj this).symm
    · rw [if_neg hc] at h ⊢
      rcases ih (assocSet reg kv0.1 kv0.2) e h with ⟨l1, kv, l2, hsplit, herr, hreg, hcall⟩
      exact ⟨kv0 :: l1, kv, l2, by rw [hsplit]; rfl, herr, by rw [hreg]; rfl, hcall⟩

lemma commitTasks_ok : ∀ (l : List (String × HVal)) (reg : Registry),
    (commitTasks reg l).1 = none →
    (commitTasks reg l).2 = List.foldl (fun r p => assocSet r p.1 p.2) reg l := by
  intro l
  induction l with
  | nil => intro reg _; rfl
  | cons kv0 rest ih =>
    intro reg h
    unfold commitTasks at h ⊢
    by_cases hc : isCallableIn reg kv0.1 = true
    · rw [if_pos hc] at h
      exact absurd h (by simp)
    · rw [if_neg hc] at h ⊢
      rw [ih (assocSet reg kv0.1 kv0.2) h]
      rfl

lemma validateDict_error_of_notCallable : ∀ (entries : List (String × HVal)) (i : Nat),
    (∃ kv ∈ entries, kv.2 = .notCallable) →
    ∃ e, validateDictEntries i entries = .error e := by
  intro entries
  induction entries with
  | nil => intro i h; simp at h
  | cons kv0 rest ih =>
    intro i h
    unfold validateDictEntries
    rcases kv0 with ⟨k0, v0⟩
    cases v0 with
    | notCallable => exact ⟨.typeErrorEntryNotFunction i k0, rfl⟩
    | callable o =>
      have hrest : ∃ kv ∈ rest, kv.2 = HVal.notCallable := by
        rcases h with ⟨kv, hmem, hv⟩
        rcases List.mem_cons.1 hmem with h1 | h2
        · rw [h1] at hv; exact absurd hv (by simp)
        · exact ⟨kv, h2, hv⟩
      rcases ih (i + 1) hrest with ⟨e, he⟩
      rw [he]
      exact ⟨e, rfl⟩

/-! Claim theorems. -/

/-- C1: stopAllEnqueuedTasks moves every record of the backing list whose
status is not Succeded into Stopped, and from then on no further execution
attempt is scheduled for that record: a pending setImmediate callback exits
without side effects when it observes Stopped, and a failing attempt that
settles after the stop does not re-invoke the loop, so no further execute
events are emitted for that record. -/
theorem c1_stopAll_suppresses_execution (s : MemState) (r : RecState) (h : RecInv r)
    (acts : List RAct) :
    (∀ t ∈ (stopAllEnqueuedTasks s).tasksInQueue, t.status = .Stopped ∨ t.status = .Succeded)
    ∧ ((rstep r .stopAll).1.status = .Stopped ∨ r.status = .Succeded)
    ∧ (runRec (rstep r .stopAll).1 acts).2 = 0 := by
  refine ⟨?_, ?_, ?_⟩
  · intro t ht
    have ht2 : t ∈ s.tasksInQueue.map stopTask := ht
    rcases List.mem_map.1 ht2 with ⟨u, hu, hut⟩
    rcases u with ⟨oid, id, opts, st⟩
    rw [← hut]
    cases st <;> simp [stopTask]
  · have hall : ∀ r2 : RecState, RecInv r2 →
        ((rstep r2 .stopAll).1.status = .Stopped ∨ r2.status = .Succeded) := by decide
    exact hall r h
  · have hall : ∀ r2 : RecState, RecInv r2 → Dead (rstep r2 .stopAll).1 := by decide
    exact (run_preserve Dead dead_step acts _ (hall r h)).2

/-- C1 witness: a record with a failed status and a pending scheduled attempt
is stopped, and a subsequent trace of attempts yields no execute events. -/
theorem c1_witness :
    RecInv ⟨.Failed, true, none, true⟩
    ∧ ((∀ t ∈ (stopAllEnqueuedTasks initMemState).tasksInQueue,
          t.status = .Stopped ∨ t.status = .Succeded)
      ∧ ((rstep ⟨.Failed, true, none, true⟩ .stopAll).1.status = .Stopped
          ∨ (⟨.Failed, true, none, true⟩ : RecState).status = .Succeded)
      ∧ (runRec (rstep ⟨.Failed, true, none, true⟩ .stopAll).1
          [.fireTick true, .settle true, .cleanup, .stopAll]).2 = 0) :=
  ⟨by decide,
    c1_stopAll_suppresses_execution initMemState ⟨.Failed, true, none, true⟩ (by decide)
      [.fireTick true, .settle true, .cleanup, .stopAll]⟩

/-- C2 counterexample: a Stopped record whose in-flight attempt settles with a
failure has its status rewritten to Failed by handleError, so Stopped is not
terminal as a status value. The first conjunct proves the state reachable
from a freshly enqueued record: the scheduled attempt fires, dispatching the
handlers with an eventually failing outcome, and stopAllEnqueuedTasks runs
while the attempt is in flight; the settlement then writes Failed. -/
theorem c2_counterexample :
    runRec ⟨.Queued, true, none, true⟩ [.fireTick false, .stopAll]
      = (⟨.Stopped, false, some false, true⟩, 1)
    ∧ RecInv ⟨.Stopped, false, some false, true⟩
    ∧ (⟨.Stopped, false, some false, true⟩ : RecState).status = .Stopped
    ∧ (rstep ⟨.Stopped, false, some false, true⟩ (.settle true)).1.status = .Failed
    ∧ (rstep ⟨.Stopped, false, some false, true⟩ (.settle true)).1.status ≠ .Stopped := by
  decide

/-- C2 amended: Succeded is terminal in every trace. A Stopped record is never
retried and emits no further execute events, and its status can change only
through the settlement of the attempt that was already in flight when the
stop happened: a failing settlement writes Failed unconditionally while
scheduling no retry and emitting no event, and a later stopAllEnqueuedTasks
re-stops the record left Failed this way; a successful settlement writes
Succeded and the cleanup sweep removes the record from the backing list. -/
theorem c2_amended_terminal_statuses (r : RecState) (h : RecInv r) (acts : List RAct) :
    (r.status = .Succeded → (runRec r acts).1.status = .Succeded)
    ∧ (r.status = .Stopped →
        (runRec r acts).2 = 0
        ∧ ((runRec r acts).1.status = .Stopped ∨ (runRec r acts).1.status = .Failed
            ∨ (runRec r acts).1.status = .Succeded))
    ∧ (r.status = .Stopped → ∀ hh : Bool,
        (r.settlePending = some false →
          (rstep r (.settle hh)).1.status = .Failed
            ∧ (rstep r (.settle hh)).1.tickPending = false
            ∧ (rstep r (.settle hh)).2 = 0
            ∧ (rstep (rstep r (.settle hh)).1 .stopAll).1.status = .Stopped)
        ∧ (r.settlePending = some true →
          (rstep r (.settle hh)).1.status = .Succeded
            ∧ (rstep r (.settle hh)).1.inList = false)) := by
  refine ⟨?_, ?_, ?_⟩
  · intro hs
    have hstart : SuccTerm r := by
      refine ⟨hs, (h.2.1 hs).1, (h.2.1 hs).2⟩
    exact ((run_preserve SuccTerm succTerm_step acts r hstart).1).1
  · intro hs
    have hstart : StopDead r := by
      refine ⟨⟨h.1, Or.inl hs⟩, Or.inl hs⟩
    have hrun := run_preserve StopDead stopDead_step acts r hstart
    exact ⟨hrun.2, hrun.1.2⟩
  · have hall : ∀ r2 : RecState, RecInv r2 → r2.status = .Stopped → ∀ hh : Bool,
        (r2.settlePending = some false →
          (rstep r2 (.settle hh)).1.status = .Failed
            ∧ (rstep r2 (.settle hh)).1.tickPending = false
            ∧ (rstep r2 (.settle hh)).2 = 0
            ∧ (rstep (rstep r2 (.settle hh)).1 .stopAll).1.status = .Stopped)
        ∧ (r2.settlePending = some true →
          (rstep r2 (.settle hh)).1.status = .Succeded
            ∧ (rstep r2 (.settle hh)).1.inList = false) := by decide
    exact hall r h

/-- C2 amended witness: applications at a Succeded record, whose status
survives a whole trace, and at a Stopped record with an in-flight failing
attempt followed by a further stop request. -/
theorem c2_amended_witness :
    RecInv ⟨.Succeded, false, none, false⟩
    ∧ RecInv ⟨.Stopped, false, some false, true⟩
    ∧ ((⟨.Succeded, false, none, false⟩ : RecState).status = .Succeded →
        (runRec ⟨.Succeded, false, none, false⟩ [.cleanup, .stopAll, .fireTick true]).1.status
          = .Succeded)
    ∧ ((⟨.Stopped, false, some false, true⟩ : RecState).status = .Stopped →
        (runRec ⟨.Stopped, false, some false, true⟩ [.settle true, .stopAll]).2 = 0
        ∧ ((runRec ⟨.Stopped, false, some false, true⟩ [.settle true, .stopAll]).1.status
              = .Stopped
          ∨ (runRec ⟨.Stopped, false, some false, true⟩ [.settle true, .stopAll]).1.status
              = .Failed
          ∨ (runRec ⟨.Stopped, false, some false, true⟩ [.settle true, .stopAll]).1.status
              = .Succeded))
    ∧ ((⟨.Stopped, false, some false, true⟩ : RecState).status = .Stopped → ∀ hh : Bool,
        ((⟨.Stopped, false, some false, true⟩ : RecState).settlePending = some false →
          (rstep ⟨.Stopped, false, some false, true⟩ (.settle hh)).1.status = .Failed
            ∧ (rstep ⟨.Stopped, false, some false, true⟩ (.settle hh)).1.tickPending = false
            ∧ (rstep ⟨.Stopped, false, some false, true⟩ (.settle hh)).2 = 0
            ∧ (rstep (rstep ⟨.Stopped, false, some false, true⟩ (.settle hh)).1
                .stopAll).1.status = .Stopped)
        ∧ ((⟨.Stopped, false, some false, true⟩ : RecState).settlePending = some true →
          (rstep ⟨.Stopped, false, some false, true⟩ (.settle hh)).1.status = .Succeded
            ∧ (rstep ⟨.Stopped, false, some false, true⟩ (.settle hh)).1.inList = false)) :=
  ⟨by decide, by decide,
    (c2_amended_terminal_statuses ⟨.Succeded, false, none, false⟩ (by decide)
      [.cleanup, .stopAll, .fireTick true]).1,
    (c2_amended_terminal_statuses ⟨.Stopped, false, some false, true⟩ (by decide)
      [.settle true, .stopAll]).2.1,
    (c2_amended_terminal_statuses ⟨.Stopped, false, some false, true⟩ (by decide)
      [.settle true, .stopAll]).2.2⟩


/-- C3 counterexample: enqueueRemainingTasks does not re-activate a Failed
record, returns the empty list even when it re-activates a Queued record,
and the record it hands to executeTask is a fresh copy, with an object
identity distinct from the stored record whose fields it copies. -/
theorem c3_counterexample :
    (enqueueRemainingTasks ⟨0, 1, [⟨0, ("a"), ⟨[], ("k")⟩, .Failed⟩], []⟩ true).2.2 = []
    ∧ (enqueueRemainingTasks ⟨0, 1, [⟨0, ("a"), ⟨[], ("k")⟩, .Queued⟩], []⟩ true).2.1 = []
    ∧ (enqueueRemainingTasks ⟨0, 1, [⟨0, ("a"), ⟨[], ("k")⟩, .Queued⟩], []⟩ true).2.2.map
        (fun t => t.oid) = [1]
    ∧ (enqueueRemainingTasks ⟨0, 1, [⟨0, ("a"), ⟨[], ("k")⟩, .Queued⟩], []⟩ true).1.tasksInQueue
        = [⟨0, ("a"), ⟨[], ("k")⟩, .Queued⟩] := by
  decide

/-- C3 amended: enqueueRemainingTasks always returns the empty list, never
changes the stored records or the id counter, selects exactly the records
whose status is Queued, and hands executeTask fresh copies of them, whose
object identities differ from every stored record. -/
theorem c3_amended_enqueueRemainingTasks (s : MemState) (hh : Bool)
    (hOid : ∀ t ∈ s.tasksInQueue, t.oid < s.nextOid) :
    (enqueueRemainingTasks s hh).2.1 = []
    ∧ (enqueueRemainingTasks s hh).1.tasksInQueue = s.tasksInQueue
    ∧ (enqueueRemainingTasks s hh).1.nextId = s.nextId
    ∧ (enqueueRemainingTasks s hh).2.2.map stripOid
      = (s.tasksInQueue.filter (fun t => t.status = .Queued)).map stripOid
    ∧ ∀ t ∈ (enqueueRemainingTasks s hh).2.2, ∀ u ∈ s.tasksInQueue, t.oid ≠ u.oid := by
  refine ⟨rfl, rfl, rfl, spawnCopies_strip _ _, ?_⟩
  intro t ht u hu
  have h1 : s.nextOid ≤ t.oid := spawnCopies_oid_ge _ _ t ht
  have h2 : u.oid < s.nextOid := hOid u hu
  omega

/-- C3 amended witness: instantiation at a one-record state with a Queued
record. -/
theorem c3_amended_witness :
    (∀ t ∈ (⟨0, 1, [⟨0, ("a"), ⟨[], ("k")⟩, .Queued⟩], []⟩ : MemState).tasksInQueue,
        t.oid < (⟨0, 1, [⟨0, ("a"), ⟨[], ("k")⟩, .Queued⟩], []⟩ : MemState).nextOid)
    ∧ ((enqueueRemainingTasks ⟨0, 1, [⟨0, ("a"), ⟨[], ("k")⟩, .Queued⟩], []⟩ true).2.1 = []
      ∧ (enqueueRemainingTasks ⟨0, 1, [⟨0, ("a"), ⟨[], ("k")⟩, .Queued⟩], []⟩ true).1.tasksInQueue
          = (⟨0, 1, [⟨0, ("a"), ⟨[], ("k")⟩, .Queued⟩], []⟩ : MemState).tasksInQueue
      ∧ (enqueueRemainingTasks ⟨0, 1, [⟨0, ("a"), ⟨[], ("k")⟩, .Queued⟩], []⟩ true).1.nextId
          = (⟨0, 1, [⟨0, ("a"), ⟨[], ("k")⟩, .Queued⟩], []⟩ : MemState).nextId
      ∧ (enqueueRemainingTasks ⟨0, 1, [⟨0, ("a"), ⟨[], ("k")⟩, .Queued⟩], []⟩ true).2.2.map
            stripOid
          = ((⟨0, 1, [⟨0, ("a"), ⟨[], ("k")⟩, .Queued⟩], []⟩ : MemState).tasksInQueue.filter
              (fun t => t.status = .Queued)).map stripOid
      ∧ ∀ t ∈ (enqueueRemainingTasks ⟨0, 1, [⟨0, ("a"), ⟨[], ("k")⟩, .Queued⟩], []⟩ true).2.2,
          ∀ u ∈ (⟨0, 1, [⟨0, ("a"), ⟨[], ("k")⟩, .Queued⟩], []⟩ : MemState).tasksInQueue,
            t.oid ≠ u.oid) :=
  ⟨by decide,
    c3_amended_enqueueRemainingTasks ⟨0, 1, [⟨0, ("a"), ⟨[], ("k")⟩, .Queued⟩], []⟩ true
      (by decide)⟩

/-- C4: every enqueueTask submission draws its id from the monotonically
increasing counter, so the ids of all records created by any sequence of
submissions are pairwise distinct, and the context returned to the caller
carries exactly the id of the record that was created for it. -/
theorem c4_unique_ids (l : List QueueTaskOptions) (hh : Bool) :
    ((enqueueMany initMemState l hh).2.map (fun c => c.id)).Nodup
    ∧ (enqueueMany initMemState l hh).1.tasksInQueue.map (fun t => t.id)
      = (enqueueMany initMemState l hh).2.map (fun c => c.id) := by
  have hspec := enqueueMany_spec l initMemState hh
  refine ⟨?_, ?_⟩
  · rw [hspec.1]
    exact (intRange_nodup _ _).map jsIntString_injective
  · rw [hspec.2.1, hspec.1]
    rfl

lemma notifyErrorHandlers_delivered : ∀ (hs : List (QueueErrorContext → Except JsVal Unit))
    (e : JsVal), (notifyErrorHandlers hs e).1 = List.replicate hs.length ⟨e⟩ := by
  intro hs e
  induction hs with
  | nil => rfl
  | cons h rest ih =>
    show (⟨e⟩ : QueueErrorContext) :: (notifyErrorHandlers rest e).1
      = List.replicate (rest.length + 1) ⟨e⟩
    rw [ih]
    rfl

/-- C5: evaluation of Queue.enqueue at the failing input. The member name the
method dereferences on the storage, queueTask, is not among the members of
MemoryQueueStorage, whose submission method is named enqueueTask, so
enqueuing a registered key rejects with a TypeError and an untouched storage
instead of forwarding the submission; an unregistered key fails with the
not-found error before any storage interaction, as the claim states. -/
theorem c5_enqueue_eval :
    List.contains memoryQueueStorageMembers ("enqueueTask") = true
    ∧ List.contains memoryQueueStorageMembers enqueueStorageCallTarget = false
    ∧ queueEnqueue [(("t1"), .callable true)] initMemState ("t1") none
      = (some (.typeErrorNotAFunction ("queueTask")), initMemState, none)
    ∧ queueEnqueue [(("t1"), .callable true)] initMemState ("t2") none
      = (some (.errorNoTaskFound ("t2")), initMemState, none) := by
  decide

/-- C6 counterexample: register commits the entries of a batch one by one, so
a batch whose second entry duplicates a registered key throws while leaving
its first entry committed, and a pair-form entry whose handler is not
callable is committed without any error. -/
theorem c6_register_counterexample :
    register [(("b"), .callable true)] (.single (("a"), .callable true))
        [(("b"), .callable true)]
      = (some (.errorTaskReset ("b")), [(("b"), .callable true), (("a"), .callable true)])
    ∧ (register [(("b"), .callable true)] (.single (("a"), .callable true))
        [(("b"), .callable true)]).2 ≠ [(("b"), .callable true)]
    ∧ register [] (.single (("a"), .notCallable)) [] = (none, [(("a"), .notCallable)]) := by
  decide

/-- C6 amended: callability is validated, before any commit, only for the
entries of a dictionary batch, where it aborts with the registry unchanged;
duplicate-key detection happens during the sequential commit, so register
throws at the first entry whose key is already registered as a function,
with exactly the earlier entries of the batch committed; a key already
registered as a function always keeps its original handler; a batch with no
such key commits every entry. -/
theorem c6_register_amended :
    (∀ (reg : Registry) (entries moreTasks : List (String × HVal)),
        (∃ kv ∈ entries, kv.2 = HVal.notCallable) →
        ∃ e, register reg (.dict entries) moreTasks = (some e, reg))
    ∧ (∀ (reg : Registry) (arg1 : RegisterArg1) (moreTasks : List (String × HVal)) (k : String),
        isCallableIn reg k = true →
        assocLookup (register reg arg1 moreTasks).2 k = assocLookup reg k)
    ∧ (∀ (reg : Registry) (l : List (String × HVal)) (e : JsErr),
        (commitTasks reg l).1 = some e →
        ∃ l1 kv l2, l = l1 ++ kv :: l2 ∧ e = .errorTaskReset kv.1
          ∧ (commitTasks reg l).2 = List.foldl (fun r p => assocSet r p.1 p.2) reg l1
          ∧ isCallableIn (commitTasks reg l).2 kv.1 = true)
    ∧ (∀ (reg : Registry) (l : List (String × HVal)),
        (commitTasks reg l).1 = none →
        (commitTasks reg l).2 = List.foldl (fun r p => assocSet r p.1 p.2) reg l) := by
  refine ⟨?_, ?_, ?_, ?_⟩
  · intro reg entries moreTasks hex
    rcases validateDict_error_of_notCallable entries 0 hex with ⟨e, he⟩
    refine ⟨e, ?_⟩
    simp [register, he]
  · intro reg arg1 moreTasks k hk
    cases arg1 with
    | single p => exact commitTasks_preserves_callable _ reg k hk
    | dict entries =>
      cases hv : validateDictEntries 0 entries with
      | error e => simp [register, hv]
      | ok es =>
        simp only [register, hv]
        exact commitTasks_preserves_callable _ reg k hk
  · intro reg l e h
    exact commitTasks_error_split l reg e h
  · intro reg l h
    exact commitTasks_ok l reg h

/-- C6 amended witness: the original handler of an already registered key
survives a later failing batch. -/
theorem c6_register_amended_witness :
    isCallableIn [(("b"), .callable true)] ("b") = true
    ∧ assocLookup (register [(("b"), .callable true)] (.single (("a"), .callable true))
        [(("b"), .callable true)]).2 ("b")
      = assocLookup [(("b"), .callable true)] ("b") :=
  ⟨by decide,
    c6_register_amended.2.1 [(("b"), .callable true)] (.single (("a"), .callable true))
      [(("b"), .callable true)] ("b") (by decide)⟩

/-- C7: on a failed attempt, handleError delivers to every subscribed error
handler exactly one payload carrying the failure, whatever each handler does,
including throwing; and the loop is re-invoked exactly when the record was
not stopped at entry, again independently of handler behaviour. -/
theorem c7_error_fanout (hs : List (QueueErrorContext → Except JsVal Unit)) (e : JsVal)
    (stopped : Bool) :
    (handleError hs e stopped).delivered = List.replicate hs.length ⟨e⟩
    ∧ (handleError hs e stopped).reinvoked = !stopped
    ∧ (handleError hs e stopped).status = .Failed :=
  ⟨notifyErrorHandlers_delivered hs e, rfl, rfl⟩

/-- C8: the execution context is built around a freshly allocated shallow copy
of the record data, so the context reference differs from the stored data
reference, initially holds the same top-level entries, and any sequence of
top-level mutations through the context leaves the stored data object, and
every other object, unchanged. -/
theorem c8_context_copy (σ : Store) (d : Nat) (key : String) (ms : List ObjMutation)
    (h : assocLookup σ d ≠ none) :
    (buildExecutionContext σ d key).2.1 ≠ d
    ∧ assocLookup (buildExecutionContext σ d key).1 (buildExecutionContext σ d key).2.1
      = some ((assocLookup σ d).getD [])
    ∧ assocLookup
        (applyMutations (buildExecutionContext σ d key).1 (buildExecutionContext σ d key).2.1 ms)
        d
      = assocLookup σ d
    ∧ ∀ r2, r2 ≠ (buildExecutionContext σ d key).2.1 →
        assocLookup
          (applyMutations (buildExecutionContext σ d key).1
            (buildExecutionContext σ d key).2.1 ms)
          r2
        = assocLookup σ r2 := by
  have hd : d < freshRef σ := freshRef_gt σ d h
  have hfresh : ∀ r2, r2 ≠ freshRef σ →
      assocLookup ((freshRef σ, (assocLookup σ d).getD []) :: σ) r2 = assocLookup σ r2 := by
    intro r2 hr2
    show (if freshRef σ = r2 then some ((assocLookup σ d).getD []) else assocLookup σ r2)
      = assocLookup σ r2
    rw [if_neg (fun hc => hr2 hc.symm)]
  refine ⟨?_, ?_, ?_, ?_⟩
  · show freshRef σ ≠ d
    omega
  · show assocLookup ((freshRef σ, (assocLookup σ d).getD []) :: σ) (freshRef σ)
      = some ((assocLookup σ d).getD [])
    show (if freshRef σ = freshRef σ then some ((assocLookup σ d).getD [])
        else assocLookup σ (freshRef σ))
      = some ((assocLookup σ d).getD [])
    rw [if_pos rfl]
  · have h3 := applyMutations_lookup_ne ms (buildExecutionContext σ d key).1
      (buildExecutionContext σ d key).2.1 d (by show d ≠ freshRef σ; omega)
    rw [h3]
    exact hfresh d (by omega)
  · intro r2 hr2
    have h3 := applyMutations_lookup_ne ms (buildExecutionContext σ d key).1
      (buildExecutionContext σ d key).2.1 r2 hr2
    rw [h3]
    exact hfresh r2 hr2

/-- C8 witness: a concrete store with one record data object, with the
observer overwriting a top-level key of the context. -/
theorem c8_witness :
    assocLookup ([(0, [(("x"), JsVal.num 1)])] : Store) 0 ≠ none
    ∧ ((buildExecutionContext ([(0, [(("x"), JsVal.num 1)])] : Store) 0 ("t")).2.1 ≠ 0
      ∧ assocLookup (buildExecutionContext ([(0, [(("x"), JsVal.num 1)])] : Store) 0 ("t")).1
          (buildExecutionContext ([(0, [(("x"), JsVal.num 1)])] : Store) 0 ("t")).2.1
        = some ((assocLookup ([(0, [(("x"), JsVal.num 1)])] : Store) 0).getD [])
      ∧ assocLookup
          (applyMutations (buildExecutionContext ([(0, [(("x"), JsVal.num 1)])] : Store) 0 ("t")).1
            (buildExecutionContext ([(0, [(("x"), JsVal.num 1)])] : Store) 0 ("t")).2.1
            [.setKey ("x") (.num 2)])
          0
        = assocLookup ([(0, [(("x"), JsVal.num 1)])] : Store) 0
      ∧ ∀ r2, r2 ≠ (buildExecutionContext ([(0, [(("x"), JsVal.num 1)])] : Store) 0 ("t")).2.1 →
          assocLookup
            (applyMutations
              (buildExecutionContext ([(0, [(("x"), JsVal.num 1)])] : Store) 0 ("t")).1
              (buildExecutionContext ([(0, [(("x"), JsVal.num 1)])] : Store) 0 ("t")).2.1
              [.setKey ("x") (.num 2)])
            r2
          = assocLookup ([(0, [(("x"), JsVal.num 1)])] : Store) r2) :=
  ⟨by decide,
    c8_context_copy ([(0, [(("x"), JsVal.num 1)])] : Store) 0 ("t")
      [.setKey ("x") (.num 2)] (by decide)⟩

/-- C9: when no execution handler is subscribed, enqueueTask records the task,
returns its context, and schedules nothing, and the record then stays Queued
in the backing list, with no execute events, along any trace that contains no
stop request. -/
theorem c9_no_handlers_noop (s : MemState) (opts : QueueTaskOptions) (acts : List RAct)
    (h : RAct.stopAll ∉ acts) :
    (enqueueTask s opts false).1.pendingOids = s.pendingOids
    ∧ (enqueueTask s opts false).1.tasksInQueue
      = s.tasksInQueue ++ [⟨s.nextOid, jsIntString s.nextId, opts, .Queued⟩]
    ∧ (enqueueTask s opts false).2 = ⟨jsIntString s.nextId⟩
    ∧ runRec ⟨.Queued, false, none, true⟩ acts = (⟨.Queued, false, none, true⟩, 0) := by
  refine ⟨rfl, rfl, rfl, ?_⟩
  revert h
  induction acts with
  | nil => intro h; rfl
  | cons a rest ih =>
    intro h
    have hrest : RAct.stopAll ∉ rest := fun hm => h (List.mem_cons_of_mem a hm)
    have ha : a ≠ RAct.stopAll := by
      intro hc
      apply h
      rw [hc]
      exact List.mem_cons_self _ _
    have hstep : rstep ⟨.Queued, false, none, true⟩ a = (⟨.Queued, false, none, true⟩, 0) := by
      cases a with
      | fireTick ok => rfl
      | settle hh => rfl
      | stopAll => exact absurd rfl ha
      | cleanup => rfl
    show ((runRec (rstep ⟨.Queued, false, none, true⟩ a).1 rest).1,
        (rstep ⟨.Queued, false, none, true⟩ a).2
          + (runRec (rstep ⟨.Queued, false, none, true⟩ a).1 rest).2)
      = (⟨.Queued, false, none, true⟩, 0)
    rw [hstep, ih hrest]
    rfl

/-- C9 witness: a concrete trace of attempt firings and settlements without a
stop request. -/
theorem c9_witness :
    RAct.stopAll ∉ ([.fireTick true, .settle false, .cleanup] : List RAct)
    ∧ ((enqueueTask initMemState ⟨[], ("k")⟩ false).1.pendingOids = initMemState.pendingOids
      ∧ (enqueueTask initMemState ⟨[], ("k")⟩ false).1.tasksInQueue
        = initMemState.tasksInQueue
          ++ [⟨initMemState.nextOid, jsIntString initMemState.nextId, ⟨[], ("k")⟩, .Queued⟩]
      ∧ (enqueueTask initMemState ⟨[], ("k")⟩ false).2 = ⟨jsIntString initMemState.nextId⟩
      ∧ runRec ⟨.Queued, false, none, true⟩ [.fireTick true, .settle false, .cleanup]
        = (⟨.Queued, false, none, true⟩, 0)) :=
  ⟨by decide,
    c9_no_handlers_noop initMemState ⟨[], ("k")⟩ [.fireTick true, .settle false, .cleanup]
      (by decide)⟩

/-- C10: when the dispatched task key has no registered handler, the execute
bridge invokes nothing and settles successfully, so the attempt built on its
outcome marks the record Succeded and the cleanup sweep drops it from the
backing list. -/
theorem c10_unknown_key_swallowed (tasks : Registry) (k : String)
    (h : assocLookup tasks k = none) :
    executeBridge tasks k = (none, true)
    ∧ (rstep ⟨.Running, false, some (executeBridge tasks k).2, true⟩ (.settle true)).1
      = ⟨.Succeded, false, none, false⟩ := by
  have h1 : executeBridge tasks k = (none, true) := by
    unfold executeBridge
    rw [h]
  refine ⟨h1, ?_⟩
  rw [h1]
  rfl

/-- C10 witness: the empty registry. -/
theorem c10_witness :
    assocLookup ([] : Registry) ("t") = none
    ∧ (executeBridge ([] : Registry) ("t") = (none, true)
      ∧ (rstep ⟨.Running, false, some (executeBridge ([] : Registry) ("t")).2, true⟩
          (.settle true)).1 = ⟨.Succeded, false, none, false⟩) :=
  ⟨by decide, c10_unknown_key_swallowed ([] : Registry) ("t") (by decide)⟩
